import Mathlib

/-!
Shallow embedding of the contest scoring engine (model/contest.ts of the
repository): the rule registry's stat / rank / scoreboard functions and the
status-store update protocol, together with theorems settling the spec's
claims about them.
-/

/-- JavaScript value model for the numeric slots this code manipulates:
`undef` is the `undefined` value (as produced by a missing property or
missing object key), `nan` is `NaN`, and `num q` an ordinary number
(modelled as a rational; the engine only ever produces exact decimal
arithmetic here). -/
inductive JsVal where
  | undef : JsVal
  | nan : JsVal
  | num : ℚ → JsVal
deriving DecidableEq

/-- JS `+` on these values: any operand that is `undefined` or `NaN` makes
the result `NaN`. -/
def jsAdd : JsVal → JsVal → JsVal
  | .num a, .num b => .num (a + b)
  | _, _ => .nan

/-- JS `*` on these values: any operand that is `undefined` or `NaN` makes
the result `NaN`. -/
def jsMul : JsVal → JsVal → JsVal
  | .num a, .num b => .num (a * b)
  | _, _ => .nan

/-- JS strict equality on these values: `undefined === undefined` is true,
`NaN === NaN` is false, numbers compare by value. -/
def jsStrictEq : JsVal → JsVal → Bool
  | .undef, .undef => true
  | .num a, .num b => decide (a = b)
  | _, _ => false

/-- JS `v || 0` on a numeric slot: the falsy values (`undefined`, `NaN`,
`0`) give `0`, any other number gives itself. -/
def orZeroNum : JsVal → JsVal
  | .num q => .num q
  | _ => .num 0

/-- A journal entry `{ rid, pid, accept, score }`: the submission handle is
represented by its creation instant `ridTime` (`rid.generationTime`, an
integer number of seconds). -/
structure JEntry where
  ridTime : ℤ
  pid : ℕ
  accept : Bool
  score : ℚ
deriving DecidableEq

/-- Association-list lookup, modelling a JS object property read keyed by a
problem id (`obj[pid]`, `undefined` when absent is `none` here). -/
def alookup {α : Type} : List (ℕ × α) → ℕ → Option α
  | [], _ => none
  | (k, v) :: rest, p => if p = k then some v else alookup rest p

/-- Association-list update, modelling a JS object property write
(`obj[pid] = v`): an existing key is overwritten in place, a new key is
appended. -/
def aupdate {α : Type} : List (ℕ × α) → ℕ → α → List (ℕ × α)
  | [], p, v => [(p, v)]
  | (k, w) :: rest, p, v =>
    if p = k then (k, v) :: rest else (k, w) :: aupdate rest p v

/-- A thrown JS runtime error (reading a property of `undefined`). -/
inductive JsError where
  | typeError : JsError
deriving DecidableEq

/-- The error kinds of this layer. -/
inductive ContestError where
  | alreadyAttended : ContestError
  | notAttended : ContestError
  | staleRev : ContestError
deriving DecidableEq

namespace acm

/-- The slice of the contest record `acm.stat` reads: the problem id list
and `beginAt.getTime()` in milliseconds. -/
structure Tdoc where
  pids : List ℕ
  beginAtMs : ℤ
deriving DecidableEq

/-- One pushed detail object `{ ...j, naccept, time }`. -/
structure DetailItem where
  j : JEntry
  naccept : Option ℕ
  time : JsVal
deriving DecidableEq

/-- The stats snapshot `{ accept, time, detail }` returned by `acm.stat`;
there is no `score` field. -/
structure StatResult where
  accept : ℕ
  time : JsVal
  detail : List DetailItem
deriving DecidableEq

/-- First loop of `acm.stat`: for each journal entry whose pid is a contest
problem and whose problem has no accepted retained entry yet, replace the
retained entry and, if the entry is a rejection, bump `naccept[pid]`. -/
def statSelect (tdoc : Tdoc) :
    List JEntry → List (ℕ × JEntry) → List (ℕ × ℕ) →
    List (ℕ × JEntry) × List (ℕ × ℕ)
  | [], eff, nacc => (eff, nacc)
  | j :: rest, eff, nacc =>
    if decide (j.pid ∈ tdoc.pids) &&
        !((alookup eff j.pid).elim false (fun e => e.accept)) then
      statSelect tdoc rest (aupdate eff j.pid j)
        (if j.accept then nacc
         else aupdate nacc j.pid ((alookup nacc j.pid).getD 0 + 1))
    else statSelect tdoc rest eff nacc

/-- Function `_time` inside `acm.stat`:
`rid.generationTime - Math.floor(beginAt.getTime() / 1000)` plus
`20 * 60 * naccept[pid]`. The `naccept[pid]` lookup yields `undefined` for
a problem whose retained entry was accepted without a counted rejection,
which makes the product and therefore the sum `NaN`. -/
def statTime (tdoc : Tdoc) (nacc : List (ℕ × ℕ)) (j : JEntry) : JsVal :=
  jsAdd (.num ((j.ridTime - Int.fdiv tdoc.beginAtMs 1000 : ℤ) : ℚ))
    (jsMul (jsMul (.num 20) (.num 60))
      ((alookup nacc j.pid).elim JsVal.undef (fun n => JsVal.num n)))

/-- Embedding of `acm.stat`: retained-entry selection, then one detail object per
retained entry, then `accept += d.accept` and, for accepted details,
`time += d.time`. -/
def stat (tdoc : Tdoc) (journal : List JEntry) : StatResult :=
  let sel := statSelect tdoc journal [] []
  let detail := sel.1.map (fun kv =>
    DetailItem.mk kv.2 (alookup sel.2 kv.2.pid) (statTime tdoc sel.2 kv.2))
  { accept := (detail.filter (fun d => d.j.accept)).length
    time := detail.foldl (fun t d => if d.j.accept then jsAdd t d.time else t) (.num 0)
    detail := detail }

end acm

namespace oi

/-- The slice of the contest record `oi.stat` reads. -/
structure Tdoc where
  pids : List ℕ
deriving DecidableEq

/-- The stats snapshot `{ score, detail }` returned by `oi.stat`. -/
structure StatResult where
  score : ℚ
  detail : List (ℕ × JEntry)
deriving DecidableEq

/-- Loop of `oi.stat`: every entry for a contest problem adds its score to
the total and overwrites the per-problem detail slot. -/
def statGo (tdoc : Tdoc) : List JEntry → ℚ → List (ℕ × JEntry) → StatResult
  | [], score, detail => { score := score, detail := detail }
  | j :: rest, score, detail =>
    if decide (j.pid ∈ tdoc.pids) then
      statGo tdoc rest (score + j.score) (aupdate detail j.pid j)
    else statGo tdoc rest score detail

/-- Embedding of `oi.stat`. -/
def stat (tdoc : Tdoc) (journal : List JEntry) : StatResult :=
  statGo tdoc journal 0 []

end oi

namespace homework

/-- The slice of the contest record `homework.stat` reads: problem ids,
`beginAt.getTime()` and `penaltySince.getTime()` in milliseconds, and the
penalty coefficient table as (threshold-hours, multiplier) pairs with
distinct keys (it is a JS object keyed by the threshold). -/
structure Tdoc where
  pids : List ℕ
  beginAtMs : ℤ
  penaltySinceMs : ℤ
  penaltyRules : List (ℚ × ℚ)
deriving DecidableEq

/-- Effective-entry selection loop of `homework.stat`. The guard is
`tdoc.pids.includes(j.pid) && !effective[j.pid] && journal[j.pid].accept`:
an already-selected problem is never replaced, and the accept flag is read
off `journal[j.pid]` — an indexed lookup on the raw journal array using the
problem id as the index; when that slot is `undefined` the property read
throws a `TypeError`. -/
def statSelect (tdoc : Tdoc) (journal : List JEntry) :
    List JEntry → List (ℕ × JEntry) → Except JsError (List (ℕ × JEntry))
  | [], eff => .ok eff
  | j :: rest, eff =>
    if decide (j.pid ∈ tdoc.pids) && (alookup eff j.pid).isNone then
      match journal[j.pid]? with
      | none => .error .typeError
      | some jj =>
        statSelect tdoc journal rest (if jj.accept then aupdate eff j.pid j else eff)
    else statSelect tdoc journal rest eff

/-- Expression `Math.floor(jdoc.rid.generationTime - tdoc.penaltySince.getTime() / 1000)`. -/
def exceedSeconds (penaltySinceMs : ℤ) (j : JEntry) : ℤ :=
  Int.floor ((j.ridTime : ℚ) - (penaltySinceMs : ℚ) / 1000)

/-- Read `tdoc.penaltyRules[i]`: table lookup by (parsed) key. -/
def alookupQ (rules : List (ℚ × ℚ)) (k : ℚ) : Option ℚ :=
  (rules.find? (fun r => decide (r.1 = k))).map Prod.snd

/-- Expression `Object.keys(tdoc.penaltyRules).map(parseFloat).sort((a, b) => a - b)`. -/
def sortKeys (rules : List (ℚ × ℚ)) : List ℚ :=
  List.insertionSort (fun a b => a ≤ b) (rules.map Prod.fst)

/-- The coefficient loop of `penaltyScore`: walk the ascending keys, keep
overwriting the coefficient while `key * 3600 <= exceedSeconds`, stop at
the first key past the boundary. -/
def coefLoop (rules : List (ℚ × ℚ)) (ex : ℤ) : List ℚ → JsVal → JsVal
  | [], c => c
  | k :: ks, c =>
    if k * 3600 ≤ (ex : ℚ) then
      coefLoop rules ex ks ((alookupQ rules k).elim JsVal.undef JsVal.num)
    else c

/-- Function `penaltyScore(jdoc)` of `homework.stat`: the raw score before the
penalty window, otherwise the raw score times the coefficient selected by
`coefLoop`. -/
def penaltyScore (tdoc : Tdoc) (j : JEntry) : JsVal :=
  let ex := exceedSeconds tdoc.penaltySinceMs j
  if ex < 0 then .num j.score
  else jsMul (.num j.score) (coefLoop tdoc.penaltyRules ex (sortKeys tdoc.penaltyRules) (.num 1))

/-- Function `time(jdoc)` of `homework.stat` as it would act on a journal entry:
`Math.floor(rid.generationTime - beginAt.getTime() / 1000)`. In the detail
loop the source instead applies it to the enumeration KEY (a string), see
`statDetail`. -/
def timeOf (tdoc : Tdoc) (j : JEntry) : ℤ :=
  Int.floor ((j.ridTime : ℚ) - (tdoc.beginAtMs : ℚ) / 1000)

/-- One pushed detail object `{ ...effective[j], penaltyScore, time }`. -/
structure DetailItem where
  j : JEntry
  penaltyScore : JsVal
  time : ℤ
deriving DecidableEq

/-- The stats snapshot `{ score, penaltyScore, time, detail }` returned by
`homework.stat`. -/
structure StatResult where
  score : JsVal
  penaltyScore : JsVal
  time : JsVal
  detail : List DetailItem
deriving DecidableEq

/-- Detail construction loop `for (const j in effective) detail.push(...)`:
the loop variable is the property KEY string, and `time(j)` reads
`.rid.generationTime` off that string — `.rid` is `undefined`, so the first
iteration throws a `TypeError`. An empty retained map yields no iteration
and no error. -/
def statDetail : List (ℕ × JEntry) → Except JsError (List DetailItem)
  | [] => .ok []
  | _ :: _ => .error .typeError

/-- Embedding of `homework.stat`: retained-entry selection, detail construction, then
the totals (`Math.sum` of `d.score`, of `d.penaltySince` — a property the
detail objects do not have, hence `undefined` — and of `d.time`). -/
def stat (tdoc : Tdoc) (journal : List JEntry) : Except JsError StatResult :=
  match statSelect tdoc journal journal [] with
  | .error e => .error e
  | .ok eff =>
    match statDetail eff with
    | .error e => .error e
    | .ok detail =>
      .ok { score := (detail.map (fun d => JsVal.num d.j.score)).foldl jsAdd (.num 0)
            penaltyScore := (detail.map (fun _ => JsVal.undef)).foldl jsAdd (.num 0)
            time := (detail.map (fun d => JsVal.num (d.time : ℚ))).foldl jsAdd (.num 0)
            detail := detail }

end homework

/-- Modelled from the spec: the generic ranking utility (`lib/rank`, whose
source is not part of the repository slice) — given a sorted sequence and
an adjacent-pair equality predicate, yield (rank, item) pairs where each
maximal run of adjacent equal items shares the rank equal to the 1-based
position of the run's first member. Inner loop: `count` items consumed so
far, `last` the previous item, `r` the rank of the previous item. -/
def rankedGo {α : Type} (eq : α → α → Bool) : α → ℕ → ℕ → List α → List (ℕ × α)
  | _, _, _, [] => []
  | last, r, count, x :: xs =>
    let c := count + 1
    let r2 := if eq last x then r else c
    (r2, x) :: rankedGo eq x r2 c xs

/-- Modelled from the spec: entry point of the ranking utility — the first
item (if any) gets rank 1. -/
def ranked {α : Type} (eq : α → α → Bool) : List α → List (ℕ × α)
  | [] => []
  | x :: xs => (1, x) :: rankedGo eq x 1 1 xs

/-- Start of the maximal adjacent-equal run containing position `i` of
`xs`, relative to the element `last` that precedes `xs`: `none` means the
run extends back through `last`, `some s` that it starts at local index
`s` of `xs`. -/
def runStartP {α : Type} (eq : α → α → Bool) : α → List α → ℕ → Option ℕ
  | _, [], _ => none
  | last, x :: _, 0 => if eq last x then none else some 0
  | last, x :: xs, i + 1 =>
    match runStartP eq x xs i with
    | some s => some (s + 1)
    | none => if eq last x then none else some 0

/-- The 0-based start position of the maximal run of adjacent `eq`-equal
elements that contains position `i` of the list. -/
def runStart {α : Type} (eq : α → α → Bool) : List α → ℕ → ℕ
  | [], _ => 0
  | _ :: _, 0 => 0
  | x :: xs, i + 1 =>
    match runStartP eq x xs i with
    | some s => s + 1
    | none => 0

/-- A scoreboard cell value: a string or a JS number. -/
inductive SVal where
  | str : String → SVal
  | jnum : JsVal → SVal
deriving DecidableEq

/-- The `raw` payload a cell may carry: a user id, a problem id, a
submission handle (by its creation instant), or JS `null`. -/
inductive RawV where
  | uid : ℕ → RawV
  | pid : ℕ → RawV
  | rid : ℤ → RawV
  | jsNull : RawV
deriving DecidableEq

/-- A scoreboard cell `{ type, value, raw? }` (`raw` absent is `none`). -/
structure ScoreboardNode where
  type : String
  value : SVal
  raw : Option RawV
deriving DecidableEq

/-- A per-problem item as read by the scoreboard renderers (an element of
`tsdoc.detail` or `tsdoc.journal`; a property a given list's items lack is
`undefined`, i.e. `JsVal.undef`). -/
structure SbItem where
  pid : ℕ
  accept : Bool
  rid : ℤ
  score : JsVal
  penaltyScore : JsVal
  time : JsVal
deriving DecidableEq

/-- A status record as consumed by `rank` and `scoreboard` (duck-typed in
the source; numeric slots may be absent, hence `JsVal`). -/
structure Tsb where
  uid : ℕ
  accept : JsVal
  score : JsVal
  penaltyScore : JsVal
  time : JsVal
  detail : Option (List SbItem)
  journal : Option (List SbItem)
deriving DecidableEq

/-- Lookup `tsddict[pid]` after `for (const item of list) tsddict[item.pid] = item`:
the last item with that pid wins; an absent source list leaves the dict
empty. -/
def tsdictLookup (items : Option (List SbItem)) (p : ℕ) : Option SbItem :=
  (items.getD []).reverse.find? (fun it => decide (it.pid = p))

/-- JS number-to-string as used by the string template helper; the exact JS
decimal rendering is presentation detail, modelled as rational printing. -/
def jsToString : JsVal → String
  | .undef => "undefined"
  | .nan => "NaN"
  | .num q => toString q

/-- Interpolate a cell value into a template string. -/
def svalToString : SVal → String
  | .str s => s
  | .jnum v => jsToString v

/-- Expression `v || d` (with d the dash placeholder) on an optionally-present numeric slot: a truthy number gives
itself, everything else (absent, `undefined`, `NaN`, `0`) the placeholder. -/
def jsOrDashVal (v : Option JsVal) : SVal :=
  match v with
  | some (.num q) => if q = 0 then .str "-" else .jnum (.num q)
  | _ => .str "-"

namespace acm

/-- Embedding of `acm.rank`: the ranking utility with the tie predicate
`(a, b) => a.score === b.score`. -/
def rank (tsdocs : List Tsb) : List (ℕ × Tsb) :=
  ranked (fun a b => jsStrictEq a.score b.score) tsdocs

/-- The status record resulting from merging an `acm.stat` snapshot: the
snapshot carries `accept`, `time` and `detail` but no `score`, so the
record's `score` slot is `undefined`. -/
def statusOf (uid : ℕ) (s : StatResult) : Tsb :=
  { uid := uid
    accept := .num s.accept
    score := .undef
    penaltyScore := .undef
    time := s.time
    detail := some (s.detail.map (fun d =>
      { pid := d.j.pid, accept := d.j.accept, rid := d.j.ridTime
        score := .num d.j.score, penaltyScore := .undef, time := d.time }))
    journal := none }

/-- Header row of `acm.scoreboard` (`_` is the translation function,
`pdict` the problem directory reduced to its titles). -/
def scoreboardColumns (isExport : Bool) (tr : String → String) (pids : List ℕ)
    (ptitle : ℕ → String) : List ScoreboardNode :=
  [⟨"rank", .str (tr "Rank"), none⟩,
   ⟨"user", .str (tr "User"), none⟩,
   ⟨"solved_problems", .str (tr "Solved Problems"), none⟩] ++
  (if isExport then
    [⟨"total_time", .str (tr "Total Time (Seconds)"), none⟩,
     ⟨"total_time_str", .str (tr "Total Time"), none⟩]
   else []) ++
  pids.enum.flatMap (fun ip =>
    if isExport then
      [⟨"problem_flag", .str ("#" ++ toString (ip.1 + 1) ++ " " ++ ptitle ip.2), none⟩,
       ⟨"problem_time", .str ("#" ++ toString (ip.1 + 1) ++ " " ++ tr "Time (Seconds)"), none⟩,
       ⟨"problem_time_str", .str ("#" ++ toString (ip.1 + 1) ++ " " ++ tr "Time"), none⟩]
    else
      [⟨"problem_detail", .str ("#" ++ toString (ip.1 + 1)), some (.pid ip.2)⟩])

/-- One participant row of `acm.scoreboard` (`udict` reduced to user names,
`fmt` the seconds formatter `misc.formatSeconds`, whose source is outside
this slice). -/
def scoreboardRow (isExport : Bool) (tr : String → String) (pids : List ℕ)
    (uname : ℕ → String) (fmt : JsVal → String) (rt : ℕ × Tsb) :
    List ScoreboardNode :=
  [⟨"string", .jnum (.num rt.1), none⟩,
   ⟨"user", .str (uname rt.2.uid), some (.uid rt.2.uid)⟩,
   ⟨"string", .jnum (orZeroNum rt.2.accept), none⟩] ++
  (if isExport then
    [⟨"string", .jnum (orZeroNum rt.2.time), none⟩,
     ⟨"string", .jnum (orZeroNum rt.2.time), none⟩]
   else []) ++
  pids.flatMap (fun pid =>
    let o := tsdictLookup rt.2.detail pid
    let acc : Bool := (o.map (fun i => i.accept)).getD false
    let rid : RawV :=
      match o with
      | some i => if i.accept then .rid i.rid else .jsNull
      | none => .jsNull
    let colAccepted : String := if acc then tr "Accepted" else "-"
    let colTime : SVal :=
      match o with
      | some i => if i.accept then .jnum i.time else .str "-"
      | none => .str "-"
    let colTimeStr : String :=
      match o with
      | some i => if i.accept then fmt i.time else "-"
      | none => "-"
    if isExport then
      [⟨"string", .str colAccepted, none⟩,
       ⟨"string", colTime, none⟩,
       ⟨"string", .str colTimeStr, none⟩]
    else
      [⟨"record", .str (colAccepted ++ "\n" ++ colTimeStr), some rid⟩])

/-- Embedding of `acm.scoreboard`: the header row followed by one row per ranked status
record. -/
def scoreboard (isExport : Bool) (tr : String → String) (tdoc : Tdoc)
    (rankedTsdocs : List (ℕ × Tsb)) (uname : ℕ → String) (ptitle : ℕ → String)
    (fmt : JsVal → String) : List (List ScoreboardNode) :=
  scoreboardColumns isExport tr tdoc.pids ptitle ::
    rankedTsdocs.map (scoreboardRow isExport tr tdoc.pids uname fmt)

end acm

namespace oi

/-- Embedding of `oi.rank`: same tie predicate as ACM. -/
def rank (tsdocs : List Tsb) : List (ℕ × Tsb) :=
  ranked (fun a b => jsStrictEq a.score b.score) tsdocs

/-- Header row of `oi.scoreboard`. -/
def scoreboardColumns (isExport : Bool) (tr : String → String) (pids : List ℕ)
    (ptitle : ℕ → String) : List ScoreboardNode :=
  [⟨"rank", .str (tr "Rank"), none⟩,
   ⟨"user", .str (tr "User"), none⟩,
   ⟨"total_score", .str (tr "Total Score"), none⟩] ++
  pids.enum.flatMap (fun ip =>
    if isExport then
      [⟨"problem_score", .str ("#" ++ toString (ip.1 + 1) ++ " " ++ ptitle ip.2), none⟩]
    else
      [⟨"problem_detail", .str ("#" ++ toString (ip.1 + 1)), some (.pid ip.2)⟩])

/-- One participant row of `oi.scoreboard` (per-problem cells are the same
in both render modes; `tsddict` is built from the raw journal). -/
def scoreboardRow (_tr : String → String) (pids : List ℕ)
    (uname : ℕ → String) (rt : ℕ × Tsb) : List ScoreboardNode :=
  [⟨"string", .jnum (.num rt.1), none⟩,
   ⟨"user", .str (uname rt.2.uid), some (.uid rt.2.uid)⟩,
   ⟨"string", .jnum (orZeroNum rt.2.score), none⟩] ++
  pids.map (fun pid =>
    let o := tsdictLookup rt.2.journal pid
    ⟨"record", jsOrDashVal (o.map (fun i => i.score)),
     some ((o.map (fun i => RawV.rid i.rid)).getD .jsNull)⟩)

/-- Embedding of `oi.scoreboard`. -/
def scoreboard (isExport : Bool) (tr : String → String) (tdoc : Tdoc)
    (rankedTsdocs : List (ℕ × Tsb)) (uname : ℕ → String) (ptitle : ℕ → String) :
    List (List ScoreboardNode) :=
  scoreboardColumns isExport tr tdoc.pids ptitle ::
    rankedTsdocs.map (scoreboardRow tr tdoc.pids uname)

end oi

namespace homework

/-- Embedding of `homework.rank`: same tie predicate as ACM. -/
def rank (tsdocs : List Tsb) : List (ℕ × Tsb) :=
  ranked (fun a b => jsStrictEq a.score b.score) tsdocs

/-- Header row of `homework.scoreboard`. -/
def scoreboardColumns (isExport : Bool) (tr : String → String) (pids : List ℕ)
    (ptitle : ℕ → String) : List ScoreboardNode :=
  [⟨"rank", .str (tr "Rank"), none⟩,
   ⟨"user", .str (tr "User"), none⟩,
   ⟨"total_score", .str (tr "Score"), none⟩] ++
  (if isExport then
    [⟨"total_original_score", .str (tr "Original Score"), none⟩,
     ⟨"total_time", .str (tr "Total Time (Seconds)"), none⟩]
   else []) ++
  [⟨"total_time_str", .str (tr "Total Time"), none⟩] ++
  pids.enum.flatMap (fun ip =>
    if isExport then
      [⟨"problem_score", .str ("#" ++ toString (ip.1 + 1) ++ " " ++ ptitle ip.2), none⟩,
       ⟨"problem_original_score",
        .str ("#" ++ toString (ip.1 + 1) ++ " " ++ tr "Original Score"), none⟩,
       ⟨"problem_time", .str ("#" ++ toString (ip.1 + 1) ++ " " ++ tr "Time (Seconds)"), none⟩,
       ⟨"problem_time_str", .str ("#" ++ toString (ip.1 + 1) ++ " " ++ tr "Time"), none⟩]
    else
      [⟨"problem_detail", .str ("#" ++ toString (ip.1 + 1)), some (.pid ip.2)⟩])

/-- One participant row of `homework.scoreboard` (`tsddict` is built from
the raw journal). -/
def scoreboardRow (isExport : Bool) (_tr : String → String) (pids : List ℕ)
    (uname : ℕ → String) (fmt : JsVal → String) (rt : ℕ × Tsb) :
    List ScoreboardNode :=
  [⟨"string", .jnum (.num rt.1), none⟩,
   ⟨"user", .str (uname rt.2.uid), some (.uid rt.2.uid)⟩,
   ⟨"string", .jnum (orZeroNum rt.2.penaltyScore), none⟩] ++
  (if isExport then
    [⟨"string", .jnum (orZeroNum rt.2.score), none⟩,
     ⟨"string", .jnum (orZeroNum rt.2.time), none⟩]
   else []) ++
  [⟨"string", .str (fmt (orZeroNum rt.2.time)), none⟩] ++
  pids.flatMap (fun pid =>
    let o := tsdictLookup rt.2.journal pid
    let rid : Option RawV := o.map (fun i => RawV.rid i.rid)
    let colScore : SVal := jsOrDashVal (o.map (fun i => i.penaltyScore))
    let colOriginalScore : SVal := jsOrDashVal (o.map (fun i => i.score))
    let colTime : SVal := jsOrDashVal (o.map (fun i => i.time))
    let colTimeStr : SVal :=
      match colTime with
      | .jnum v => .str (fmt (orZeroNum v))
      | .str _ => .str "-"
    if isExport then
      [⟨"string", colScore, none⟩,
       ⟨"string", colOriginalScore, none⟩,
       ⟨"string", colTime, none⟩,
       ⟨"string", colTimeStr, none⟩]
    else
      [⟨"record",
        .str (svalToString colScore ++ " / " ++ svalToString colOriginalScore
          ++ "\n" ++ svalToString colTimeStr), rid⟩])

/-- Embedding of `homework.scoreboard`. -/
def scoreboard (isExport : Bool) (tr : String → String) (tdoc : Tdoc)
    (rankedTsdocs : List (ℕ × Tsb)) (uname : ℕ → String) (ptitle : ℕ → String)
    (fmt : JsVal → String) : List (List ScoreboardNode) :=
  scoreboardColumns isExport tr tdoc.pids ptitle ::
    rankedTsdocs.map (scoreboardRow isExport tr tdoc.pids uname fmt)

end homework

/-- Embedding of `_getStatusJournal`: sort the journal by `rid.generationTime`
ascending (JS array sort is stable; insertion sort is, too). -/
def getStatusJournal (journal : List JEntry) : List JEntry :=
  List.insertionSort (fun a b => a.ridTime ≤ b.ridTime) journal

/-- A per-(contest, participant) status record as held by the store. -/
structure Tsdoc (σ : Type) where
  attend : ℕ
  journal : List JEntry
  rev : ℕ
  stats : Option σ

/-- Modelled from the spec: `document.revPushStatus` (source outside this
slice) — atomically append a journal entry and bump the revision,
returning the updated record. -/
def revPushStatus {σ : Type} (t : Tsdoc σ) (e : JEntry) : Tsdoc σ :=
  { t with journal := t.journal ++ [e], rev := t.rev + 1 }

/-- Modelled from the spec: `document.revSetStatus` (source outside this
slice) — write the journal and recomputed snapshot conditioned on the
revision still being current; a stale write is rejected. -/
def revSetStatus {σ : Type} (t : Tsdoc σ) (rev : ℕ) (journal : List JEntry)
    (stats : σ) : Option (Tsdoc σ) :=
  if t.rev = rev then
    some { t with journal := journal, stats := some stats, rev := t.rev + 1 }
  else none

/-- Embedding of `updateStatus`, parametric over the rule's `stat` (the source selects
`RULES[tdoc.rule].stat`): append the entry, fail if the participant is not
attended, else recompute the stats from the full sorted journal and write
them conditioned on the revision. -/
def updateStatus {σ : Type} (stat : List JEntry → σ) (t : Tsdoc σ) (e : JEntry) :
    Except ContestError (Tsdoc σ) :=
  let t1 := revPushStatus t e
  if t1.attend = 0 then .error .notAttended
  else
    let journal := getStatusJournal t1.journal
    match revSetStatus t1 t1.rev journal (stat journal) with
    | some t2 => .ok t2
    | none => .error .staleRev

/-- The (participant attendance flag, contest attendance counter) state
read and written by `attend`. -/
structure AttendState where
  attend : ℕ
  contestAttend : ℕ
deriving DecidableEq

/-- Modelled from the spec: `document.cappedIncStatus` (source outside
this slice) — an atomic bounded increment of the attendance field from 0
to 1 that fails when the field is already at the cap. -/
def cappedIncStatus (cur : ℕ) : Option ℕ :=
  if cur + 1 ≤ 1 then some (cur + 1) else none

/-- Embedding of `attend`: the capped increment, mapped to the already-attended error on
rejection; on success the contest's display counter is bumped
unconditionally. -/
def attend (s : AttendState) : Except ContestError AttendState :=
  match cappedIncStatus s.attend with
  | none => .error .alreadyAttended
  | some a => .ok { attend := a, contestAttend := s.contestAttend + 1 }

/-- Run `n` attend attempts in sequence: the capped increment is atomic
(store-provided), so any set of concurrent attempts serializes into such a
sequence. Returns the per-attempt outcomes and the final state. -/
def attendRepeat : ℕ → AttendState → List (Except ContestError Unit) × AttendState
  | 0, s => ([], s)
  | n + 1, s =>
    match attend s with
    | .ok s2 =>
      let r := attendRepeat n s2
      (.ok () :: r.1, r.2)
    | .error e =>
      let r := attendRepeat n s
      (.error e :: r.1, r.2)

/-- Contest for the ACM first-try-accept evaluation: one problem, begins
at epoch 0. -/
def c1Tdoc : acm.Tdoc := ⟨[1], 0⟩

/-- Journal with a single accepted entry for problem 1 at second 60. -/
def c1Journal : List JEntry := [⟨60, 1, true, 100⟩]

/-- Assignment contest with a single problem 0 and no penalty table. -/
def c2Tdoc : homework.Tdoc := ⟨[0], 0, 0, []⟩

/-- Journal: a rejection then an acceptance for problem 0. -/
def c2Journal : List JEntry := [⟨10, 0, false, 0⟩, ⟨20, 0, true, 100⟩]

/-- Assignment contest whose problem id (3) exceeds the journal length. -/
def c2TdocB : homework.Tdoc := ⟨[3], 0, 0, []⟩

/-- Journal with a single accepted entry for problem 3. -/
def c2JournalB : List JEntry := [⟨5, 3, true, 100⟩]

/-- Assignment contest with a single problem 0. -/
def c6Tdoc : homework.Tdoc := ⟨[0], 0, 0, []⟩

/-- Journal with a single accepted entry for problem 0 at second 60 (the
selection guard `journal[0].accept` happens to hit this very entry, so one
effective entry is retained). -/
def c6Journal : List JEntry := [⟨60, 0, true, 100⟩]

/-- Six status records with primary scores 100, 100, 80, 80, 80, 50 and
pairwise different secondary data (accept counts, times). -/
def rankExample : List Tsb :=
  [⟨1, .num 3, .num 100, .undef, .num 500, none, none⟩,
   ⟨2, .num 3, .num 100, .undef, .num 700, none, none⟩,
   ⟨3, .num 2, .num 80, .undef, .num 100, none, none⟩,
   ⟨4, .num 2, .num 80, .undef, .num 200, none, none⟩,
   ⟨5, .num 2, .num 80, .undef, .num 300, none, none⟩,
   ⟨6, .num 1, .num 50, .undef, .num 900, none, none⟩]

/-- Assignment contest with `penaltySince` at epoch 0 and the coefficient
table shown in the spec's example: 1 hour → 0.8, 3 hours → 0.5. -/
def c5Tdoc : homework.Tdoc := ⟨[0], 0, 0, [(1, 4/5), (3, 1/2)]⟩

/-- A 100-point submission 2 hours past `penaltySince`. -/
def c5At2h : JEntry := ⟨7200, 0, true, 100⟩

/-- A 100-point submission 4 hours past `penaltySince`. -/
def c5At4h : JEntry := ⟨14400, 0, true, 100⟩

/-- A 100-point submission before `penaltySince`. -/
def c5Before : JEntry := ⟨-100, 0, true, 100⟩

instance : IsTotal JEntry (fun a b => a.ridTime ≤ b.ridTime) :=
  ⟨fun a b => le_total a.ridTime b.ridTime⟩

instance : IsTrans JEntry (fun a b => a.ridTime ≤ b.ridTime) :=
  ⟨fun _ _ _ hab hbc => le_trans hab hbc⟩

example : (acm.stat ⟨[1], 0⟩ [⟨60, 1, true, 100⟩]).time = JsVal.nan := by
  simp [acm.stat, acm.statSelect, acm.statTime, alookup, aupdate, jsAdd, jsMul]

example :
    (acm.stat ⟨[1], 0⟩
      [⟨10, 1, false, 0⟩, ⟨20, 1, false, 0⟩, ⟨30, 1, true, 100⟩]).time
      = JsVal.num 2430 := by
  simp [acm.stat, acm.statSelect, acm.statTime, alookup, aupdate, jsAdd, jsMul]
  norm_num [Int.fdiv]

example :
    (oi.stat ⟨[7]⟩ [⟨10, 7, false, 30⟩, ⟨20, 7, true, 70⟩]).score = 100 := by
  norm_num [oi.stat, oi.statGo, alookup, aupdate]

theorem alookup_aupdate {α : Type} (k : ℕ) (v : α) (p : ℕ) :
    ∀ l : List (ℕ × α),
    alookup (aupdate l k v) p = if p = k then some v else alookup l p := by
  intro l
  induction l with
  | nil => simp [aupdate, alookup]
  | cons kv rest ih =>
    obtain ⟨k2, w⟩ := kv
    by_cases h : k = k2
    · subst h
      by_cases hp : p = k <;> simp [aupdate, alookup, hp]
    · by_cases hp : p = k2
      · have hpk : ¬ p = k := by omega
        have hkk : ¬ k2 = k := by omega
        simp [aupdate, alookup, h, hp, hpk, hkk]
      · simp [aupdate, alookup, h, hp, ih]

/-- Claim C1 evaluation at the failing input: a participant whose only
entry is an acceptance on the first attempt. The code counts the accept
but computes `NaN` for both the per-problem time and the total time,
where the claim requires 60 seconds (submission instant 60 minus begin
instant 0, with no rejection penalty). -/
theorem claim_C1 :
    (acm.stat c1Tdoc c1Journal).accept = 1 ∧
    (acm.stat c1Tdoc c1Journal).time = JsVal.nan ∧
    (acm.stat c1Tdoc c1Journal).detail.map (fun d => d.time) = [JsVal.nan] := by
  refine ⟨?_, ?_, ?_⟩ <;>
    simp [acm.stat, acm.statSelect, acm.statTime, c1Tdoc, c1Journal,
      alookup, aupdate, jsAdd, jsMul]

/-- Claim C2 evaluation at the failing inputs. First: a rejection followed
by an acceptance on problem 0 — the claimed retain-until-accepted rule
(consulting each candidate's own accept flag) retains the acceptance, but
the code consults `journal[0].accept` (the rejection) for both candidates
and retains nothing. Second: a problem id (3) beyond the journal length
makes the indexed lookup `journal[3]` yield `undefined` and the selection
throw a `TypeError`. -/
theorem claim_C2 :
    homework.statSelect c2Tdoc c2Journal c2Journal [] = .ok [] ∧
    homework.statSelect c2TdocB c2JournalB c2JournalB [] = .error .typeError := by
  constructor <;>
    simp [homework.statSelect, c2Tdoc, c2Journal, c2TdocB, c2JournalB, alookup]

/-- Claim C6 evaluation at the failing input: one retained accepted entry
for problem 0. The claim requires the returned totals (score 100, penalty
score 100, time 60), but the detail-construction loop applies `time` to
the enumeration key string and the whole `stat` call throws a `TypeError`
(and had it not, the penalty-score total would sum the nonexistent
`penaltySince` property instead of `penaltyScore`). -/
theorem claim_C6 :
    homework.stat c6Tdoc c6Journal = .error .typeError := by
  simp [homework.stat, homework.statSelect, homework.statDetail,
    c6Tdoc, c6Journal, alookup, aupdate]

theorem oi_statGo_score (tdoc : oi.Tdoc) :
    ∀ (js : List JEntry) (score : ℚ) (detail : List (ℕ × JEntry)),
    (oi.statGo tdoc js score detail).score =
      score + ((js.filter (fun j => decide (j.pid ∈ tdoc.pids))).map JEntry.score).sum := by
  intro js
  induction js with
  | nil => intro score detail; simp [oi.statGo]
  | cons j rest ih =>
    intro score detail
    by_cases h : j.pid ∈ tdoc.pids
    · simp only [oi.statGo, h, decide_eq_true, if_true, ih, List.filter_cons,
        List.map_cons, List.sum_cons]
      ring
    · simp [oi.statGo, h, ih]

theorem oi_statGo_detail (tdoc : oi.Tdoc) :
    ∀ (js : List JEntry) (score : ℚ) (detail : List (ℕ × JEntry)) (p : ℕ),
    alookup (oi.statGo tdoc js score detail).detail p =
      ((js.reverse.find? (fun j => decide (j.pid ∈ tdoc.pids) && decide (j.pid = p))).or
        (alookup detail p)) := by
  intro js
  induction js with
  | nil => intro score detail p; simp [oi.statGo]
  | cons j rest ih =>
    intro score detail p
    by_cases h : j.pid ∈ tdoc.pids
    · simp only [oi.statGo, h, decide_eq_true, if_true, ih, List.reverse_cons,
        List.find?_append, alookup_aupdate]
      cases hf : rest.reverse.find? (fun j => decide (j.pid ∈ tdoc.pids) && decide (j.pid = p)) with
      | some e => simp
      | none =>
        by_cases hp : p = j.pid
        · simp [hp, h, List.find?]
        · have hp2 : ¬ j.pid = p := by omega
          simp [List.find?, h, hp, hp2]
    · have step : oi.statGo tdoc (j :: rest) score detail =
          oi.statGo tdoc rest score detail := by
        simp [oi.statGo, h]
      rw [step, ih, List.reverse_cons, List.find?_append]
      cases hq : rest.reverse.find? (fun j => decide (j.pid ∈ tdoc.pids) && decide (j.pid = p)) with
      | some e => simp [List.find?, h]
      | none => simp [List.find?, h]

/-- Claim C4: for every contest and journal, the OI total score is the sum
of the scores of all journal entries for contest problems, while the
per-problem detail slot holds the latest such entry; and on the spec's
example (scores 30 then 70 on one problem) the detail holds the 70-point
entry while the total is 100. -/
theorem claim_C4 :
    (∀ (tdoc : oi.Tdoc) (journal : List JEntry),
      (oi.stat tdoc journal).score =
        ((journal.filter (fun j => decide (j.pid ∈ tdoc.pids))).map JEntry.score).sum ∧
      ∀ p : ℕ, alookup (oi.stat tdoc journal).detail p =
        journal.reverse.find? (fun j => decide (j.pid ∈ tdoc.pids) && decide (j.pid = p))) ∧
    (oi.stat ⟨[7]⟩ [⟨10, 7, false, 30⟩, ⟨20, 7, true, 70⟩]).score = 100 ∧
    alookup (oi.stat ⟨[7]⟩ [⟨10, 7, false, 30⟩, ⟨20, 7, true, 70⟩]).detail 7 =
      some ⟨20, 7, true, 70⟩ := by
  refine ⟨fun tdoc journal => ⟨?_, fun p => ?_⟩, ?_, ?_⟩
  · simp [oi.stat, oi_statGo_score]
  · simp [oi.stat, oi_statGo_detail, alookup]
  · norm_num [oi.stat, oi.statGo, alookup, aupdate]
  · norm_num [oi.stat, oi.statGo, alookup, aupdate]

theorem rankedGo_getElem {α : Type} (eq : α → α → Bool) :
    ∀ (xs : List α) (last : α) (r c i : ℕ),
    (rankedGo eq last r c xs)[i]? =
      (xs[i]?).map (fun x =>
        ((match runStartP eq last xs i with
          | none => r
          | some s => c + s + 1), x)) := by
  intro xs
  induction xs with
  | nil => intro last r c i; simp [rankedGo, runStartP]
  | cons x xs ih =>
    intro last r c i
    cases i with
    | zero =>
      by_cases h : eq last x <;> simp [rankedGo, runStartP, h]
    | succ i =>
      simp only [rankedGo, List.getElem?_cons_succ]
      rw [ih x (if eq last x then r else c + 1) (c + 1) i]
      simp only [runStartP]
      cases hrs : runStartP eq x xs i with
      | some s =>
        cases hx : xs[i]? with
        | some y => simp [hrs, hx]; omega
        | none => simp [hrs, hx]
      | none =>
        by_cases h : eq last x <;>
          cases hx : xs[i]? with
          | some y => simp [hrs, hx, h]; try omega
          | none => simp [hrs, hx, h]

theorem ranked_getElem {α : Type} (eq : α → α → Bool) (l : List α) (i : ℕ) :
    (ranked eq l)[i]? = (l[i]?).map (fun x => (runStart eq l i + 1, x)) := by
  cases l with
  | nil => simp [ranked, runStart]
  | cons x xs =>
    cases i with
    | zero => simp [ranked, runStart]
    | succ i =>
      simp only [ranked, List.getElem?_cons_succ, runStart]
      rw [rankedGo_getElem]
      cases hrs : runStartP eq x xs i with
      | some s =>
        cases hx : xs[i]? with
        | some y => simp [hrs, hx]; omega
        | none => simp [hrs, hx]
      | none =>
        cases hx : xs[i]? with
        | some y => simp [hrs, hx]
        | none => simp [hrs, hx]

/-- Claim C3: for every adjacent-pair tie predicate and input sequence,
element `i` of the ranking output carries the input element together with
the rank `runStart + 1`: one more than the 0-based start position of the
maximal run of adjacent tied elements containing `i` — i.e. a cluster of
`k` tied records shares the 1-based position of its first member and the
next distinct rank jumps by `k`. On the spec's example, the ACM rank
function (tie detection on the primary score only, despite differing
accept counts and times) yields ranks 1, 1, 3, 3, 3, 6. -/
theorem claim_C3 :
    (∀ (α : Type) (eq : α → α → Bool) (l : List α) (i : ℕ),
      (ranked eq l)[i]? = (l[i]?).map (fun x => (runStart eq l i + 1, x))) ∧
    (acm.rank rankExample).map Prod.fst = [1, 1, 3, 3, 3, 6] := by
  refine ⟨fun α eq l i => ranked_getElem eq l i, ?_⟩
  norm_num [acm.rank, rankExample, ranked, rankedGo, jsStrictEq]

theorem runStartP_undef :
    ∀ (xs : List Tsb) (last : Tsb), last.score = JsVal.undef →
    (∀ x ∈ xs, x.score = JsVal.undef) →
    ∀ i, runStartP (fun a b => jsStrictEq a.score b.score) last xs i = none := by
  intro xs
  induction xs with
  | nil => intro last _ _ i; simp [runStartP]
  | cons x xs ih =>
    intro last hl hx i
    have hx0 : x.score = JsVal.undef := hx x (by simp)
    have heq : jsStrictEq last.score x.score = true := by
      rw [hl, hx0]; rfl
    cases i with
    | zero => simp [runStartP, heq]
    | succ i =>
      simp only [runStartP]
      rw [ih x hx0 (fun y hy => hx y (by simp [hy])) i]
      simp [heq]

theorem runStart_undef (l : List Tsb) (h : ∀ x ∈ l, x.score = JsVal.undef) (i : ℕ) :
    runStart (fun a b => jsStrictEq a.score b.score) l i = 0 := by
  cases l with
  | nil => simp [runStart]
  | cons x xs =>
    cases i with
    | zero => simp [runStart]
    | succ i =>
      simp only [runStart]
      rw [runStartP_undef xs x (h x (by simp)) (fun y hy => h y (by simp [hy])) i]

/-- Claim C10 (implicit): an `acm.stat` snapshot has `accept`, `time` and
`detail` but no `score` (see `acm.statusOf`), while `acm.rank` ties on
`a.score === b.score`; since `undefined === undefined` is true, every pair
of ACM-produced status records ties, so every participant receives rank 1
regardless of accept count or time. -/
theorem claim_C10 (tdoc : acm.Tdoc) (journals : List (ℕ × List JEntry)) (i : ℕ) :
    ((acm.rank (journals.map (fun uj => acm.statusOf uj.1 (acm.stat tdoc uj.2))))[i]?).map
        Prod.fst
      = (journals[i]?).map (fun _ => 1) := by
  have hall : ∀ x ∈ journals.map (fun uj => acm.statusOf uj.1 (acm.stat tdoc uj.2)),
      x.score = JsVal.undef := by
    intro x hx
    simp only [List.mem_map] at hx
    obtain ⟨uj, _, rfl⟩ := hx
    rfl
  rw [acm.rank, ranked_getElem, runStart_undef _ hall i, List.getElem?_map]
  cases hx : journals[i]? with
  | some uj => simp
  | none => simp

theorem attend_already (s : AttendState) (h : 1 ≤ s.attend) :
    attend s = .error .alreadyAttended := by
  have hc : ¬ (s.attend + 1 ≤ 1) := by omega
  simp [attend, cappedIncStatus, hc]

theorem attendRepeat_already :
    ∀ (n : ℕ) (s : AttendState), 1 ≤ s.attend →
    attendRepeat n s = (List.replicate n (.error .alreadyAttended), s) := by
  intro n
  induction n with
  | zero => intro s _; simp [attendRepeat]
  | succ n ih =>
    intro s h
    simp [attendRepeat, attend_already s h, ih s h, List.replicate_succ]

/-- Claim C7: starting from an un-attended status record, any number
`n ≥ 1` of serialized attend attempts (the capped increment is atomic, so
concurrent attempts serialize) produces exactly one success followed by
`n - 1` already-attended failures, leaves the attendance flag at 1, and
every further attempt on an attended record fails with the
already-attended error — the flag transitions 0 to 1 exactly once. -/
theorem claim_C7 (n : ℕ) (s : AttendState) (h0 : s.attend = 0) (hn : 1 ≤ n) :
    (attendRepeat n s).1 =
      .ok () :: List.replicate (n - 1) (.error .alreadyAttended) ∧
    (attendRepeat n s).2.attend = 1 ∧
    (∀ s2 : AttendState, 1 ≤ s2.attend → attend s2 = .error .alreadyAttended) := by
  obtain ⟨m, rfl⟩ : ∃ m, n = m + 1 := ⟨n - 1, by omega⟩
  have hatt : attend s = .ok ⟨1, s.contestAttend + 1⟩ := by
    simp [attend, cappedIncStatus, h0]
  refine ⟨?_, ?_, fun s2 h2 => attend_already s2 h2⟩
  · simp [attendRepeat, hatt, attendRepeat_already m ⟨1, s.contestAttend + 1⟩ (by simp)]
  · simp [attendRepeat, hatt, attendRepeat_already m ⟨1, s.contestAttend + 1⟩ (by simp)]

/-- Witness for claim C7: three serialized attempts on a fresh record —
the first succeeds, the next two fail with already-attended, and the
attendance flag ends at 1. -/
theorem claim_C7_witness :
    ((⟨0, 5⟩ : AttendState).attend = 0 ∧ 1 ≤ 3) ∧
    ((attendRepeat 3 ⟨0, 5⟩).1 =
        .ok () :: List.replicate (3 - 1) (.error .alreadyAttended) ∧
      (attendRepeat 3 ⟨0, 5⟩).2.attend = 1 ∧
      (∀ s2 : AttendState, 1 ≤ s2.attend → attend s2 = .error .alreadyAttended)) :=
  ⟨⟨rfl, by omega⟩, claim_C7 3 ⟨0, 5⟩ rfl (by omega)⟩

/-- Claim C8: `updateStatus` appends the entry and then (a) raises the
not-attended error when the participant's attend flag is zero, (b)
otherwise recomputes the rule's stats from the full journal sorted by
submission creation instant ascending and writes them (journal sorted,
revision advanced) through the revision-conditioned write; the sorted
journal is indeed ascending, and a write against a stale revision is
rejected. -/
theorem claim_C8 {σ : Type} (stat : List JEntry → σ) (t : Tsdoc σ) (e : JEntry) :
    (t.attend = 0 → updateStatus stat t e = .error .notAttended) ∧
    (t.attend ≠ 0 → updateStatus stat t e =
      .ok ⟨t.attend, getStatusJournal (t.journal ++ [e]), t.rev + 2,
        some (stat (getStatusJournal (t.journal ++ [e])))⟩) ∧
    (∀ l : List JEntry,
      (getStatusJournal l).Pairwise (fun a b => a.ridTime ≤ b.ridTime)) ∧
    (∀ (t2 : Tsdoc σ) (rev : ℕ) (journal : List JEntry) (stats : σ),
      t2.rev ≠ rev → revSetStatus t2 rev journal stats = none) := by
  refine ⟨fun h0 => ?_, fun h1 => ?_, fun l => ?_, fun t2 rev journal stats hne => ?_⟩
  · simp [updateStatus, revPushStatus, h0]
  · simp [updateStatus, revPushStatus, revSetStatus, h1]
  · exact List.sorted_insertionSort _ l
  · simp [revSetStatus, hne]

/-- Witness for claim C8: a not-attended record errors (after the append),
an attended record gets the sorted journal and freshly computed stats
written, and a stale-revision write is rejected. -/
theorem claim_C8_witness :
    ((⟨0, [], 0, none⟩ : Tsdoc ℕ).attend = 0 ∧
      updateStatus List.length (⟨0, [], 0, none⟩ : Tsdoc ℕ) ⟨5, 1, true, 100⟩ =
        .error .notAttended) ∧
    ((⟨1, [⟨9, 2, false, 0⟩], 0, none⟩ : Tsdoc ℕ).attend ≠ 0 ∧
      updateStatus List.length (⟨1, [⟨9, 2, false, 0⟩], 0, none⟩ : Tsdoc ℕ)
          ⟨5, 1, true, 100⟩ =
        .ok ⟨1, getStatusJournal ([⟨9, 2, false, 0⟩] ++ [⟨5, 1, true, 100⟩]), 2,
          some (List.length (getStatusJournal ([⟨9, 2, false, 0⟩] ++ [⟨5, 1, true, 100⟩])))⟩) ∧
    ((⟨3, [], 5, none⟩ : Tsdoc ℕ).rev ≠ 4 ∧
      revSetStatus (⟨3, [], 5, none⟩ : Tsdoc ℕ) 4 [] 0 = none) :=
  ⟨⟨rfl, (claim_C8 List.length ⟨0, [], 0, none⟩ ⟨5, 1, true, 100⟩).1 rfl⟩,
   ⟨by decide, (claim_C8 List.length ⟨1, [⟨9, 2, false, 0⟩], 0, none⟩ ⟨5, 1, true, 100⟩).2.1
      (by decide)⟩,
   ⟨by decide, (claim_C8 List.length ⟨3, [], 5, none⟩ ⟨5, 1, true, 100⟩).2.2.2
      ⟨3, [], 5, none⟩ 4 [] 0 (by decide)⟩⟩

theorem rows_rank_cell (cols : List ScoreboardNode)
    (row : (ℕ × Tsb) → List ScoreboardNode)
    (hrow : ∀ rt, (row rt).head? = some ⟨"string", .jnum (.num rt.1), none⟩)
    (rts : List (ℕ × Tsb)) :
    (cols :: rts.map row).length = rts.length + 1 ∧
    ∀ i : ℕ, ((cols :: rts.map row)[i + 1]?).bind List.head? =
      (rts[i]?).map (fun rt => (⟨"string", .jnum (.num rt.1), none⟩ : ScoreboardNode)) := by
  refine ⟨by simp, fun i => ?_⟩
  simp only [List.getElem?_cons_succ, List.getElem?_map]
  cases hx : rts[i]? with
  | none => simp
  | some rt => simp [hrow rt]

theorem acm_row_head (isExport : Bool) (tr : String → String) (pids : List ℕ)
    (uname : ℕ → String) (fmt : JsVal → String) (rt : ℕ × Tsb) :
    (acm.scoreboardRow isExport tr pids uname fmt rt).head? =
      some ⟨"string", .jnum (.num rt.1), none⟩ := by
  simp [acm.scoreboardRow]

theorem oi_row_head (tr : String → String) (pids : List ℕ)
    (uname : ℕ → String) (rt : ℕ × Tsb) :
    (oi.scoreboardRow tr pids uname rt).head? =
      some ⟨"string", .jnum (.num rt.1), none⟩ := by
  simp [oi.scoreboardRow]

theorem homework_row_head (isExport : Bool) (tr : String → String) (pids : List ℕ)
    (uname : ℕ → String) (fmt : JsVal → String) (rt : ℕ × Tsb) :
    (homework.scoreboardRow isExport tr pids uname fmt rt).head? =
      some ⟨"string", .jnum (.num rt.1), none⟩ := by
  simp [homework.scoreboardRow]

/-- Claim C9: for each rule, rendering with the export flag true and false
produces one header row plus exactly one row per ranked status record (so
equal row counts), and for every participant row the leading rank cell is
the same `string` cell carrying that participant's rank in both
variants; only the column sets and per-problem cell shapes differ. -/
theorem claim_C9 (tr : String → String) (atdoc : acm.Tdoc) (otdoc : oi.Tdoc)
    (htdoc : homework.Tdoc) (rts : List (ℕ × Tsb)) (uname : ℕ → String)
    (ptitle : ℕ → String) (fmt : JsVal → String) :
    ((acm.scoreboard true tr atdoc rts uname ptitle fmt).length = rts.length + 1 ∧
     (acm.scoreboard false tr atdoc rts uname ptitle fmt).length = rts.length + 1 ∧
     ∀ i : ℕ,
       ((acm.scoreboard true tr atdoc rts uname ptitle fmt)[i + 1]?).bind List.head? =
         (rts[i]?).map (fun rt => (⟨"string", .jnum (.num rt.1), none⟩ : ScoreboardNode)) ∧
       ((acm.scoreboard false tr atdoc rts uname ptitle fmt)[i + 1]?).bind List.head? =
         (rts[i]?).map (fun rt => (⟨"string", .jnum (.num rt.1), none⟩ : ScoreboardNode))) ∧
    ((oi.scoreboard true tr otdoc rts uname ptitle).length = rts.length + 1 ∧
     (oi.scoreboard false tr otdoc rts uname ptitle).length = rts.length + 1 ∧
     ∀ i : ℕ,
       ((oi.scoreboard true tr otdoc rts uname ptitle)[i + 1]?).bind List.head? =
         (rts[i]?).map (fun rt => (⟨"string", .jnum (.num rt.1), none⟩ : ScoreboardNode)) ∧
       ((oi.scoreboard false tr otdoc rts uname ptitle)[i + 1]?).bind List.head? =
         (rts[i]?).map (fun rt => (⟨"string", .jnum (.num rt.1), none⟩ : ScoreboardNode))) ∧
    ((homework.scoreboard true tr htdoc rts uname ptitle fmt).length = rts.length + 1 ∧
     (homework.scoreboard false tr htdoc rts uname ptitle fmt).length = rts.length + 1 ∧
     ∀ i : ℕ,
       ((homework.scoreboard true tr htdoc rts uname ptitle fmt)[i + 1]?).bind List.head? =
         (rts[i]?).map (fun rt => (⟨"string", .jnum (.num rt.1), none⟩ : ScoreboardNode)) ∧
       ((homework.scoreboard false tr htdoc rts uname ptitle fmt)[i + 1]?).bind List.head? =
         (rts[i]?).map (fun rt => (⟨"string", .jnum (.num rt.1), none⟩ : ScoreboardNode))) := by
  have ha1 := rows_rank_cell (acm.scoreboardColumns true tr atdoc.pids ptitle)
    (acm.scoreboardRow true tr atdoc.pids uname fmt)
    (acm_row_head true tr atdoc.pids uname fmt) rts
  have ha2 := rows_rank_cell (acm.scoreboardColumns false tr atdoc.pids ptitle)
    (acm.scoreboardRow false tr atdoc.pids uname fmt)
    (acm_row_head false tr atdoc.pids uname fmt) rts
  have ho1 := rows_rank_cell (oi.scoreboardColumns true tr otdoc.pids ptitle)
    (oi.scoreboardRow tr otdoc.pids uname)
    (oi_row_head tr otdoc.pids uname) rts
  have ho2 := rows_rank_cell (oi.scoreboardColumns false tr otdoc.pids ptitle)
    (oi.scoreboardRow tr otdoc.pids uname)
    (oi_row_head tr otdoc.pids uname) rts
  have hh1 := rows_rank_cell (homework.scoreboardColumns true tr htdoc.pids ptitle)
    (homework.scoreboardRow true tr htdoc.pids uname fmt)
    (homework_row_head true tr htdoc.pids uname fmt) rts
  have hh2 := rows_rank_cell (homework.scoreboardColumns false tr htdoc.pids ptitle)
    (homework.scoreboardRow false tr htdoc.pids uname fmt)
    (homework_row_head false tr htdoc.pids uname fmt) rts
  exact ⟨⟨ha1.1, ha2.1, fun i => ⟨ha1.2 i, ha2.2 i⟩⟩,
         ⟨ho1.1, ho2.1, fun i => ⟨ho1.2 i, ho2.2 i⟩⟩,
         ⟨hh1.1, hh2.1, fun i => ⟨hh1.2 i, hh2.2 i⟩⟩⟩

theorem alookupQ_mem :
    ∀ (rules : List (ℚ × ℚ)) (m : ℚ), m ∈ rules.map Prod.fst →
    ∃ c : ℚ, homework.alookupQ rules m = some c ∧ (m, c) ∈ rules := by
  intro rules
  induction rules with
  | nil => intro m hm; simp at hm
  | cons r rest ih =>
    obtain ⟨r1, r2⟩ := r
    intro m hm
    by_cases h : r1 = m
    · subst h
      exact ⟨r2, by simp [homework.alookupQ, List.find?], by simp⟩
    · have hm2 : m ∈ rest.map Prod.fst := by
        rcases List.mem_cons.mp hm with h1 | h2
        · exact absurd h1.symm h
        · exact h2
      obtain ⟨c, hc1, hc2⟩ := ih m hm2
      refine ⟨c, ?_, by simp [hc2]⟩
      simpa [homework.alookupQ, List.find?, h] using hc1

theorem coefLoop_spec (rules : List (ℚ × ℚ)) (ex : ℤ) :
    ∀ ks : List ℚ, ks.Pairwise (fun a b => a ≤ b) →
    ∀ c : JsVal,
    ((∀ k ∈ ks, ¬ (k * 3600 ≤ (ex : ℚ))) ∧ homework.coefLoop rules ex ks c = c) ∨
    (∃ m, m ∈ ks ∧ m * 3600 ≤ (ex : ℚ) ∧
      (∀ k ∈ ks, k * 3600 ≤ (ex : ℚ) → k ≤ m) ∧
      homework.coefLoop rules ex ks c =
        (homework.alookupQ rules m).elim JsVal.undef JsVal.num) := by
  intro ks
  induction ks with
  | nil => intro _ c; left; simp [homework.coefLoop]
  | cons k ks ih =>
    intro hp c
    have hp2 : ks.Pairwise (fun a b => a ≤ b) := hp.of_cons
    have hk_le : ∀ k2 ∈ ks, k ≤ k2 := fun k2 h2 => List.rel_of_pairwise_cons hp h2
    by_cases hsat : k * 3600 ≤ (ex : ℚ)
    · rcases ih hp2 ((homework.alookupQ rules k).elim JsVal.undef JsVal.num) with
        ⟨hnone, heq⟩ | ⟨m, hm, hmsat, hmax, heq⟩
      · right
        refine ⟨k, by simp, hsat, ?_, ?_⟩
        · intro k2 hk2 hs2
          rcases List.mem_cons.mp hk2 with rfl | h2
          · exact le_refl k2
          · exact absurd hs2 (hnone k2 h2)
        · simp only [homework.coefLoop, hsat, if_pos]
          exact heq
      · right
        refine ⟨m, by simp [hm], hmsat, ?_, ?_⟩
        · intro k2 hk2 hs2
          rcases List.mem_cons.mp hk2 with rfl | h2
          · exact hk_le m hm
          · exact hmax k2 h2 hs2
        · simp only [homework.coefLoop, hsat, if_pos]
          exact heq
    · left
      constructor
      · intro k2 hk2 hs2
        rcases List.mem_cons.mp hk2 with rfl | h2
        · exact hsat hs2
        · have hle : k * 3600 ≤ k2 * 3600 :=
            mul_le_mul_of_nonneg_right (hk_le k2 h2) (by norm_num)
          exact hsat (le_trans hle hs2)
      · simp [homework.coefLoop, hsat]

/-- Claim C5: for every effective entry, the penalty-adjusted score is the
raw score when the submission precedes `penaltySince`, and otherwise the
raw score times `c`, where `c` is the multiplier of the largest threshold
whose hour boundary times 3600 is at most the exceed seconds (or 1 when no
threshold qualifies). On the spec's example table (1 hour → 0.8, 3 hours →
0.5) a 100-point submission 2 hours in pays 80, 4 hours in pays 50, and
one before `penaltySince` pays 100. -/
theorem claim_C5 :
    (∀ (tdoc : homework.Tdoc) (j : JEntry),
      (homework.exceedSeconds tdoc.penaltySinceMs j < 0 →
        homework.penaltyScore tdoc j = .num j.score) ∧
      (0 ≤ homework.exceedSeconds tdoc.penaltySinceMs j →
        ∃ c : ℚ, homework.penaltyScore tdoc j = .num (j.score * c) ∧
          (((∀ t ∈ tdoc.penaltyRules.map Prod.fst,
              ¬ (t * 3600 ≤ (homework.exceedSeconds tdoc.penaltySinceMs j : ℚ))) ∧
              c = 1) ∨
           (∃ t : ℚ, (t, c) ∈ tdoc.penaltyRules ∧
              t * 3600 ≤ (homework.exceedSeconds tdoc.penaltySinceMs j : ℚ) ∧
              ∀ t2 ∈ tdoc.penaltyRules.map Prod.fst,
                t2 * 3600 ≤ (homework.exceedSeconds tdoc.penaltySinceMs j : ℚ) →
                  t2 ≤ t)))) ∧
    homework.penaltyScore c5Tdoc c5At2h = .num 80 ∧
    homework.penaltyScore c5Tdoc c5At4h = .num 50 ∧
    homework.penaltyScore c5Tdoc c5Before = .num 100 := by
  refine ⟨fun tdoc j => ⟨fun hneg => ?_, fun hpos => ?_⟩, ?_, ?_, ?_⟩
  · simp [homework.penaltyScore, hneg]
  · have hnn : ¬ (homework.exceedSeconds tdoc.penaltySinceMs j < 0) := by omega
    have hsorted : (homework.sortKeys tdoc.penaltyRules).Pairwise (fun a b => a ≤ b) :=
      List.sorted_insertionSort (fun a b => a ≤ b) (tdoc.penaltyRules.map Prod.fst)
    have hmem : ∀ x : ℚ, x ∈ homework.sortKeys tdoc.penaltyRules ↔
        x ∈ tdoc.penaltyRules.map Prod.fst :=
      fun x => (List.perm_insertionSort (fun a b => a ≤ b)
        (tdoc.penaltyRules.map Prod.fst)).mem_iff
    rcases coefLoop_spec tdoc.penaltyRules (homework.exceedSeconds tdoc.penaltySinceMs j)
        (homework.sortKeys tdoc.penaltyRules) hsorted (.num 1) with
      ⟨hnone, heq⟩ | ⟨m, hm, hmsat, hmax, heq⟩
    · refine ⟨1, ?_, Or.inl ⟨fun t ht => hnone t ((hmem t).mpr ht), rfl⟩⟩
      simp [homework.penaltyScore, hnn, heq, jsMul]
    · obtain ⟨c, hc1, hc2⟩ := alookupQ_mem tdoc.penaltyRules m ((hmem m).mp hm)
      refine ⟨c, ?_, Or.inr ⟨m, hc2, hmsat, fun t2 ht2 hs2 =>
        hmax t2 ((hmem t2).mpr ht2) hs2⟩⟩
      simp [homework.penaltyScore, hnn, heq, hc1, jsMul]
  · norm_num [homework.penaltyScore, homework.exceedSeconds, homework.sortKeys,
      homework.coefLoop, homework.alookupQ, List.insertionSort, List.orderedInsert,
      List.find?, c5Tdoc, c5At2h, jsMul]
  · norm_num [homework.penaltyScore, homework.exceedSeconds, homework.sortKeys,
      homework.coefLoop, homework.alookupQ, List.insertionSort, List.orderedInsert,
      List.find?, c5Tdoc, c5At4h, jsMul]
  · norm_num [homework.penaltyScore, homework.exceedSeconds, c5Tdoc, c5Before]

/-- Witness for claim C5: the penalty-window branch at the concrete
2-hours-late submission and the no-penalty branch at the early one. -/
theorem claim_C5_witness :
    (0 ≤ homework.exceedSeconds c5Tdoc.penaltySinceMs c5At2h ∧
      (∃ c : ℚ, homework.penaltyScore c5Tdoc c5At2h = .num (c5At2h.score * c) ∧
        (((∀ t ∈ c5Tdoc.penaltyRules.map Prod.fst,
            ¬ (t * 3600 ≤ (homework.exceedSeconds c5Tdoc.penaltySinceMs c5At2h : ℚ))) ∧
            c = 1) ∨
         (∃ t : ℚ, (t, c) ∈ c5Tdoc.penaltyRules ∧
            t * 3600 ≤ (homework.exceedSeconds c5Tdoc.penaltySinceMs c5At2h : ℚ) ∧
            ∀ t2 ∈ c5Tdoc.penaltyRules.map Prod.fst,
              t2 * 3600 ≤ (homework.exceedSeconds c5Tdoc.penaltySinceMs c5At2h : ℚ) →
                t2 ≤ t)))) ∧
    (homework.exceedSeconds c5Tdoc.penaltySinceMs c5Before < 0 ∧
      homework.penaltyScore c5Tdoc c5Before = .num c5Before.score) := by
  have h2 : 0 ≤ homework.exceedSeconds c5Tdoc.penaltySinceMs c5At2h := by
    norm_num [homework.exceedSeconds, c5Tdoc, c5At2h]
  have hb : homework.exceedSeconds c5Tdoc.penaltySinceMs c5Before < 0 := by
    norm_num [homework.exceedSeconds, c5Tdoc, c5Before]
  exact ⟨⟨h2, (claim_C5.1 c5Tdoc c5At2h).2 h2⟩, ⟨hb, (claim_C5.1 c5Tdoc c5Before).1 hb⟩⟩
